import Mathlib

/-!
Shallow embedding of `modules/position_list_node.py` from chess-puzzle-maker.

The Python class `PositionListNode` is a linked-list node of analysed chess
positions.  We embed a node as the structure `Link` (all fields of the Python
object except `next_position`), and a whole chain starting at a node as a
`List Link`: the Python node `n` corresponds to the nonempty list
`n :: successors`, and `next_position = None` corresponds to an empty tail.

External collaborators (python-chess board operations, material utilities and
the ambiguity classifier) are gathered in the parameter structure `Chess`;
the UCI analysis engine is the parameter structure `Engine`.  Scores use exact
rationals where Python uses floats; the thresholds involved (0.2, 0.1, 2, 6)
and all values exercised here are exactly representable, and no comparison in
the claims probes a float-rounding boundary.

Python runtime errors (attribute access on `None`) are modelled by `Option`
results: `none` is an uncaught exception, and Python's short-circuiting
`and` / `or` is translated so that a crashing operand is only reached when
the preceding conjuncts/disjuncts let evaluation reach it.

Logging calls (`logging.debug`, `_log_position`, `_log_move`) have no effect
on any modelled state and are omitted.
-/

/-- An engine score, mirroring `chess.uci.Score`: a centipawn value or a
mate-distance value, either of which may be absent. -/
structure Score where
  cp : Option Int
  mate : Option Int
deriving DecidableEq

/-- Mirror of the `CandidateMove` namedtuple
(`move_uci`, `move_san`, `evaluation`). -/
structure CandidateMove where
  move_uci : String
  move_san : String
  evaluation : Score
deriving DecidableEq

/-- The external chess-rules and utility interface consumed by
`PositionListNode`: board operations from python-chess
(`push`, `is_game_over`, `is_checkmate`, legal-move counting, SAN/UCI
rendering), the material utilities from `modules.utils`, and the pluggable
ambiguity classifier from `modules.candidate_moves`.  `is_checkmate` is part
of the rules interface although `position_list_node.py` never calls it; it
lets theorems speak about checkmate specifically. -/
structure Chess where
  Pos : Type
  Move : Type
  push : Pos → Move → Pos
  is_game_over : Pos → Bool
  is_checkmate : Pos → Bool
  legal_move_count : Pos → Nat
  material_difference : Pos → ℚ
  material_count : Pos → ℚ
  uci : Move → String
  san : Pos → Move → String
  ambiguous : List Score → Bool

/-- The external UCI analysis engine, as a pure oracle: `bestmove p d` is the
`bestmove` field of `engine.go(depth=d)` after `engine.position(p)`;
`score p d` is `info_handlers[0].info["score"][1]` after that search;
`pv_move p d k i` / `pv_score p d k i` are `info["pv"][i][0]` and
`info["score"][i]` after a search at depth `d` with `MultiPV = k`. -/
structure Engine (C : Chess) where
  bestmove : C.Pos → Nat → Option C.Move
  score : C.Pos → Nat → Score
  pv_move : C.Pos → Nat → Nat → Nat → C.Move
  pv_score : C.Pos → Nat → Nat → Nat → Score

/-- The result object returned by `engine.go`: its `bestmove` field may be
`None`. -/
structure GoResult (C : Chess) where
  bestmove : Option C.Move

/-- One `PositionListNode` minus its `next_position` field (the chain tail
carries the successor).  Field names follow the Python attributes. -/
structure Link (C : Chess) where
  initial_position : C.Pos
  initial_move : C.Move
  position : C.Pos
  player_turn : Bool
  best_move : Option (GoResult C)
  evaluation : Option Score
  candidate_moves : List CandidateMove
  strict : Bool

/-- `PositionListNode.__init__`: snapshot the incoming position, derive
`position` by applying `initial_move` (Python copies the board and calls
`push`), and leave `best_move`, `evaluation`, `next_position` (the chain
tail) and `candidate_moves` unpopulated. -/
def Link.init (C : Chess) (position : C.Pos) (initial_move : C.Move)
    (player_turn : Bool) (strict : Bool) : Link C :=
  { initial_position := position
    initial_move := initial_move
    position := C.push position initial_move
    player_turn := player_turn
    best_move := none
    evaluation := none
    candidate_moves := []
    strict := strict }

/-- `PositionListNode.ambiguous`: apply the external classifier to the
evaluations of the stored candidate moves. -/
def Link.ambiguous (C : Chess) (l : Link C) : Bool :=
  C.ambiguous (l.candidate_moves.map CandidateMove.evaluation)

/-- `PositionListNode.game_over`:
`self.position.is_game_over() or self.next_position.position.is_game_over()`.
`rest` is the chain after this link.  Python's `or` short-circuits, so the
attribute error on a null `next_position` (`none` result) is only raised when
the current position is not itself game over. -/
def Link.game_over (C : Chess) (l : Link C) (rest : List (Link C)) :
    Option Bool :=
  if C.is_game_over l.position then some true
  else
    match rest with
    | [] => none
    | n :: _ => some (C.is_game_over n.position)

/-- `PositionListNode.move_list`, on the chain starting at a node.  The
guard is `next_position is None or next.ambiguous() or
next.position.is_game_over()`; both branches read
`self.best_move.bestmove.uci()`, which raises (result `none`) when
`bestmove` is `None`, while the guarded branch first checks
`self.best_move is not None` and returns `[]` when it is `None`. -/
def move_list (C : Chess) : List (Link C) → Option (List String)
  | [] => some []
  | l :: rest =>
    if (match rest with
        | [] => true
        | n :: _ => Link.ambiguous C n || C.is_game_over n.position) then
      match l.best_move with
      | none => some []
      | some r =>
        match r.bestmove with
        | none => none
        | some m => some [C.uci m]
    else
      match l.best_move with
      | none => none
      | some r =>
        match r.bestmove with
        | none => none
        | some m => (move_list C rest).map (fun tl => C.uci m :: tl)

/-- `PositionListNode.category`: walk to the tail of the chain and return
`'Mate'` when the tail position is game over, else `'Material'`.  The `[]`
case is unreachable (the method is always invoked on a node). -/
def category (C : Chess) : List (Link C) → String
  | [] => ""
  | [l] => if C.is_game_over l.position then "Mate" else "Material"
  | _ :: l :: rest => category C (l :: rest)

/-- The non-recursive part of `PositionListNode.is_complete` (lines 144-169):
the material conditions at the reached link, or the game-over test for mate
puzzles.  Python's five-way `and` is short-circuiting: the attribute access
`self.evaluation.mate` (a crash, `none`, when `evaluation` is `None`) is only
reached when the three preceding comparisons hold. -/
def Link.is_complete_tail (C : Chess) (l : Link C) (cat : String)
    (white_to_move : Bool) (initial_material_diff : ℚ) : Option Bool :=
  if cat = "Material" then
    let num_pieces := C.material_count l.position
    let md := C.material_difference l.position
    let final_material_change := |md - initial_material_diff|
    if white_to_move then
      if md > 0.2 && final_material_change > 0.1
          && initial_material_diff < 2 then
        match l.evaluation with
        | none => none
        | some ev => some (decide (ev.mate = none) && decide (num_pieces > 6))
      else some false
    else
      if md < -0.2 && final_material_change > 0.1
          && initial_material_diff > -2 then
        match l.evaluation with
        | none => none
        | some ev => some (decide (ev.mate = none) && decide (num_pieces > 6))
      else some false
  else
    some (C.is_game_over l.position)

/-- `PositionListNode.is_complete`, on the chain starting at a node.  With a
non-null `next_position` it recurses down the chain: for `'Mate'` while this
link is unambiguous, for `'Material'` while `next_position.next_position` is
non-null; otherwise it falls through to the material / game-over conditions
at the current link.  The `[]` case is unreachable. -/
def is_complete (C : Chess) (cat : String) (white_to_move : Bool)
    (initial_material_diff : ℚ) : List (Link C) → Option Bool
  | [] => none
  | l :: rest =>
    match rest with
    | [] => Link.is_complete_tail C l cat white_to_move initial_material_diff
    | _ :: rest2 =>
      if cat = "Mate" && !(Link.ambiguous C l) then
        is_complete C cat white_to_move initial_material_diff rest
      else if cat = "Material" && !rest2.isEmpty then
        is_complete C cat white_to_move initial_material_diff rest
      else
        Link.is_complete_tail C l cat white_to_move initial_material_diff

/-- `PositionListNode.evaluate_candidate_moves`: query the engine with
`MultiPV = min(3, legal_move_count)` (a no-op when that is zero) and append
one `CandidateMove` per principal variation `i+1` for `i in range(multipv)`.
The engine's `MultiPV` option is restored to 1 afterwards; being engine
state, that has no modelled effect here. -/
def evaluate_candidate_moves (C : Chess) (E : Engine C) (depth : Nat)
    (l : Link C) : Link C :=
  let multipv := min 3 (C.legal_move_count l.position)
  if multipv = 0 then l
  else
    { l with candidate_moves := l.candidate_moves ++
        (List.range multipv).map (fun i =>
          let move := E.pv_move l.position depth multipv (i + 1)
          let evaluation := E.pv_score l.position depth multipv (i + 1)
          { move_uci := C.uci move
            move_san := C.san l.position move
            evaluation := evaluation }) }

/-- `PositionListNode.evaluate_best`: store the engine result in `best_move`
always; when its `bestmove` is present, also record the evaluation and
construct the successor node from a copy of this position with `player_turn`
flipped and `strict` propagated.  Returns the updated link and the
constructed successor (`some` exactly when Python returns `True`). -/
def evaluate_best (C : Chess) (E : Engine C) (depth : Nat) (l : Link C) :
    Link C × Option (Link C) :=
  let result : GoResult C := { bestmove := E.bestmove l.position depth }
  match result.bestmove with
  | some bm =>
    ({ l with best_move := some result
              evaluation := some (E.score l.position depth) },
     some (Link.init C l.position bm (!l.player_turn) l.strict))
  | none =>
    ({ l with best_move := some result }, none)

/-- `PositionListNode.generate` (the chain-extension recursion), with an
explicit fuel parameter: the Python recursion passes `depth` through
unchanged and terminates only because chains stop growing, which structural
recursion cannot see.  Returns the chain from this node downward.  With no
legal moves, or no best move, the chain ends here.  Otherwise candidate
moves are evaluated and the recursion guard is Python's
`not self.player_turn or (has_best and not self.ambiguous() and not
self.game_over())` with `has_best` already `True` on this path; `game_over`
is called with the freshly populated successor, so its `getD` default is
never consulted. -/
def generate (C : Chess) (E : Engine C) : Nat → Nat → Link C → List (Link C)
  | 0, _, l => [l]
  | fuel + 1, depth, l =>
    if C.legal_move_count l.position = 0 then [l]
    else
      match evaluate_best C E depth l with
      | (l', none) => [l']
      | (l', some nxt) =>
        let l'' := evaluate_candidate_moves C E depth l'
        if !l''.player_turn
            || (!(Link.ambiguous C l'')
                && !((Link.game_over C l'' [nxt]).getD false)) then
          l'' :: generate C E fuel depth nxt
        else
          l'' :: [nxt]

/-- The tail link of the chain `l :: rest` (the unique link with a null
`next_position`). -/
def lastLink (C : Chess) (l : Link C) : List (Link C) → Link C
  | [] => l
  | n :: rest => lastLink C n rest

/-- A link on which Python's `self.best_move.bestmove.uci()` cannot raise:
if a `go` result is stored, it contains an actual best move.  Links built by
`generate` violate this only when the engine reports no best move in a
position that still has legal moves. -/
def link_wf (C : Chess) (l : Link C) : Bool :=
  match l.best_move with
  | none => true
  | some r => r.bestmove.isSome

/-- Chains on which `move_list` cannot raise: every link satisfies
`link_wf`, and every non-tail link has a populated `best_move` (which is how
`generate` builds chains: a successor exists only after a best move was
found). -/
def wf_chain (C : Chess) : List (Link C) → Bool
  | [] => true
  | [l] => link_wf C l
  | l :: rest => link_wf C l && l.best_move.isSome && wf_chain C rest

/-- The solution sequence in the words of the spec (§4.5), for the
refinement comparison with `move_list`: the ordered `bestMove` UCI
coordinates from the current link down to, but not past, the first link
whose next link is ambiguous or whose next link's position is terminal; a
link with no `bestMove` contributes an empty continuation. -/
def move_list_spec (C : Chess) : List (Link C) → List String
  | [] => []
  | l :: rest =>
    let here : List String :=
      match l.best_move with
      | none => []
      | some r =>
        match r.bestmove with
        | none => []
        | some m => [C.uci m]
    match rest with
    | [] => here
    | n :: _ =>
      if Link.ambiguous C n || C.is_game_over n.position then here
      else here ++ move_list_spec C rest

/-- `evaluate_candidate_moves` only writes `candidate_moves`; every other
field is returned unchanged. -/
theorem evaluate_candidate_moves_fields (C : Chess) (E : Engine C)
    (depth : Nat) (l : Link C) :
    (evaluate_candidate_moves C E depth l).initial_position
        = l.initial_position ∧
    (evaluate_candidate_moves C E depth l).initial_move = l.initial_move ∧
    (evaluate_candidate_moves C E depth l).position = l.position ∧
    (evaluate_candidate_moves C E depth l).player_turn = l.player_turn ∧
    (evaluate_candidate_moves C E depth l).best_move = l.best_move ∧
    (evaluate_candidate_moves C E depth l).evaluation = l.evaluation ∧
    (evaluate_candidate_moves C E depth l).strict = l.strict := by
  simp only [evaluate_candidate_moves]
  split <;> exact ⟨rfl, rfl, rfl, rfl, rfl, rfl, rfl⟩

/-- Starting from an empty candidate list, `evaluate_candidate_moves` stores
at most `min 3 legal_move_count` candidates (exactly that many, or none when
the position has no legal moves). -/
theorem evaluate_candidate_moves_length (C : Chess) (E : Engine C)
    (depth : Nat) (l : Link C) (h : l.candidate_moves = []) :
    (evaluate_candidate_moves C E depth l).candidate_moves.length
      ≤ min 3 (C.legal_move_count l.position) := by
  simp only [evaluate_candidate_moves]
  split
  · simp [h]
  · simp [h]

/-- Claim C5: `category` walks to the tail link (the one with a null
`next_position`) and returns `'Mate'` exactly when that tail link's position
is a terminal game state, and `'Material'` otherwise.  Its definition
consults no engine and returns without modifying any link, so the traversal
is a pure read of chain shape. -/
theorem category_tail_classification (C : Chess) (l : Link C)
    (rest : List (Link C)) :
    category C (l :: rest) =
      if C.is_game_over (lastLink C l rest).position then "Mate"
      else "Material" := by
  induction rest generalizing l with
  | nil => rfl
  | cons n rest ih => simpa [category, lastLink] using ih n

/-- Claim C10: on a link whose position has no legal moves, `generate` is a
no-op terminal: the resulting chain is exactly the unchanged link (so
`next_position` stays null and no observable state of the link changes), and
the result does not depend on the engine or the requested depth because the
engine is never queried.  A freshly constructed link furthermore carries
`best_move = none` and `candidate_moves = []`, which the no-op preserves. -/
theorem generate_no_legal_moves_noop (C : Chess) (E E' : Engine C)
    (fuel fuel' depth depth' : Nat) (l : Link C)
    (h : C.legal_move_count l.position = 0) :
    generate C E fuel depth l = [l] ∧
    generate C E fuel depth l = generate C E' fuel' depth' l ∧
    (∀ p m pt st, (Link.init C p m pt st).best_move = none ∧
      (Link.init C p m pt st).candidate_moves = []) := by
  have key : ∀ (E₀ : Engine C) (f d : Nat), generate C E₀ f d l = [l] := by
    intro E₀ f d
    cases f with
    | zero => rfl
    | succ f => simp [generate, h]
  exact ⟨key E fuel depth, (key E fuel depth).trans (key E' fuel' depth').symm,
    fun p m pt st => ⟨rfl, rfl⟩⟩

/-- Claim C7 (amended): calling `game_over` on a link whose `next_position`
is null raises an attribute error exactly when the link's own position is
not already game over — Python's short-circuiting `or` returns `True`
without touching `next_position` otherwise.  With a populated successor the
call always returns a normal boolean, which is the only way `generate`
invokes it (its call site passes the successor just built by
`evaluate_best`). -/
theorem game_over_null_next (C : Chess) (l : Link C) :
    (Link.game_over C l [] = none ↔ C.is_game_over l.position = false) ∧
    (∀ n rest, (Link.game_over C l (n :: rest)).isSome = true) := by
  constructor
  · unfold Link.game_over
    cases h : C.is_game_over l.position <;> simp [h]
  · intro n rest
    unfold Link.game_over
    cases h : C.is_game_over l.position <;> simp [h]

/-- A concrete rules instance containing a stalemate: position 1 is a
terminal game state that is not checkmate. -/
abbrev stalemateChess : Chess where
  Pos := Nat
  Move := Nat
  push := fun p m => p + m
  is_game_over := fun p => p == 1
  is_checkmate := fun _ => false
  legal_move_count := fun p => if p == 1 then 0 else 2
  material_difference := fun _ => 0
  material_count := fun _ => 10
  uci := fun m => toString m
  san := fun _ m => toString m
  ambiguous := fun _ => false

/-- A single-link chain whose reached position (position 1) is stalemate. -/
abbrev stalemateLink : Link stalemateChess :=
  Link.init stalemateChess 0 1 true true

/-- Claim C2 (code bug): on a chain whose final reached position is terminal
but not checkmate — a stalemate — `is_complete('Mate', ...)` returns `True`:
line 169 tests the generic `position.is_game_over()`, although the code's
own comment ("mate puzzles are only complete at checkmate", line 167) and
the spec demand checkmate specifically and `False` for stalemate. -/
theorem is_complete_mate_accepts_stalemate :
    stalemateChess.is_game_over stalemateLink.position = true ∧
    stalemateChess.is_checkmate stalemateLink.position = false ∧
    is_complete stalemateChess "Mate" true 0 [stalemateLink] = some true := by
  refine ⟨rfl, rfl, ?_⟩
  rfl

/-- With a start already decisive towards the side to move, the material
conditions at any reached link fail on the `initial_material_diff` bound,
short-circuiting to `False` before `evaluation` is touched. -/
theorem is_complete_tail_decisive (C : Chess) (w : Bool) (imd : ℚ)
    (l : Link C) (h : if w then 2 ≤ imd else imd ≤ -2) :
    Link.is_complete_tail C l "Material" w imd = some false := by
  unfold Link.is_complete_tail
  cases w with
  | true =>
    have h2 : ¬ (imd < 2) := not_lt.mpr (by simpa using h)
    simp [h2]
  | false =>
    have h2 : ¬ (imd > -2) := not_lt.mpr (by simpa using h)
    simp [h2]

/-- A concrete setting for the decisive-start counterexample: every position
shows material difference `-1` with 10 pawn-units of material left. -/
abbrev decisiveStartChess : Chess where
  Pos := Nat
  Move := Nat
  push := fun p m => p + m
  is_game_over := fun _ => false
  is_checkmate := fun _ => false
  legal_move_count := fun _ => 5
  material_difference := fun _ => -1
  material_count := fun _ => 10
  uci := fun m => toString m
  san := fun _ m => toString m
  ambiguous := fun _ => false

/-- A reached link with a populated, mate-free evaluation in the
decisive-start setting. -/
abbrev decisiveStartLink : Link decisiveStartChess :=
  { initial_position := 0
    initial_move := 1
    position := 1
    player_turn := true
    best_move := some { bestmove := some 2 }
    evaluation := some { cp := some (-100), mate := none }
    candidate_moves := []
    strict := true }

/-- Claim C4 counterexample: the starting material difference `5/2` has
magnitude at least 2, yet with black to move at the puzzle start the code
only checks `initial_material_diff > -2`, so a chain reaching material
difference `-1` (no mate score, 10 pawn-units remaining) is accepted:
`is_complete('Material', False, 2.5)` returns `True`, not `False`. -/
theorem is_complete_material_decisive_counterexample :
    (2 : ℚ) ≤ 5/2 ∧
    is_complete decisiveStartChess "Material" false (5/2) [decisiveStartLink]
      = some true := by
  constructor
  · norm_num
  · simp only [is_complete, Link.is_complete_tail, decisiveStartChess,
      decisiveStartLink]
    have habs : |(-1 : ℚ) - 5/2| = 7/2 := by
      rw [abs_of_nonpos (by norm_num)]
      norm_num
    rw [habs]
    norm_num

/-- Claim C4 (amended): the "not already decisive" bound of
`is_complete('Material', w, imd)` is one-sided, in the direction of the side
to move: `imd < 2` is required with white to move and `imd > -2` with black
to move.  Hence for every chain the check returns `False`, regardless of any
material swing achieved along it, whenever `imd ≥ 2` with white to move or
`imd ≤ -2` with black to move; a start decisive in the opposite direction is
not rejected (see the counterexample). -/
theorem is_complete_material_decisive_start (C : Chess) (w : Bool)
    (imd : ℚ) (l : Link C) (rest : List (Link C))
    (h : if w then 2 ≤ imd else imd ≤ -2) :
    is_complete C "Material" w imd (l :: rest) = some false := by
  induction rest generalizing l with
  | nil => simpa [is_complete] using is_complete_tail_decisive C w imd l h
  | cons n rest ih =>
    cases rest with
    | nil => simpa [is_complete] using is_complete_tail_decisive C w imd l h
    | cons n2 rest2 => simpa [is_complete] using ih n

/-- Claim C4 witness: a concrete decisive start for the side to move (white
to move, `imd = 3 ≥ 2`) on a concrete single-link chain is rejected. -/
theorem is_complete_material_decisive_start_witness :
    is_complete decisiveStartChess "Material" true 3 [decisiveStartLink]
      = some false :=
  is_complete_material_decisive_start decisiveStartChess true 3
    decisiveStartLink [] (by norm_num)

/-- Claim C6: at a reached leaf link with white to move at the puzzle start,
starting material difference `0`, material difference `0.3` at the reached
link (so the swing exceeds `0.1`), a populated evaluation with no mate
score, and a material count of 10 — above the floor of 6 —
`is_complete('Material', True, 0.0)` returns `True`; with material count 5,
below the floor, and all else equal it returns `False`. -/
theorem is_complete_material_scenario (C : Chess) (l1 l2 : Link C)
    (ev1 ev2 : Score)
    (h1md : C.material_difference l1.position = 0.3)
    (h1ev : l1.evaluation = some ev1) (h1mate : ev1.mate = none)
    (h1mc : C.material_count l1.position = 10)
    (h2md : C.material_difference l2.position = 0.3)
    (h2ev : l2.evaluation = some ev2) (h2mate : ev2.mate = none)
    (h2mc : C.material_count l2.position = 5) :
    is_complete C "Material" true 0 [l1] = some true ∧
    is_complete C "Material" true 0 [l2] = some false := by
  have habs : |(0.3 : ℚ) - 0| = 0.3 := by
    rw [abs_of_nonneg (by norm_num)]
    norm_num
  constructor
  · simp only [is_complete, Link.is_complete_tail, h1md, h1ev, h1mate, h1mc,
      habs]
    norm_num
  · simp only [is_complete, Link.is_complete_tail, h2md, h2ev, h2mate, h2mc,
      habs]
    norm_num

/-- A concrete setting for the material scenario: every position shows
material difference `0.3`; position 2 has 5 pawn-units of material left,
every other position 10. -/
abbrev scenarioChess : Chess where
  Pos := Nat
  Move := Nat
  push := fun p m => p + m
  is_game_over := fun _ => false
  is_checkmate := fun _ => false
  legal_move_count := fun _ => 5
  material_difference := fun _ => 0.3
  material_count := fun p => if p == 2 then 5 else 10
  uci := fun m => toString m
  san := fun _ m => toString m
  ambiguous := fun _ => false

/-- A reached link (position 1: 10 pawn-units) with a mate-free
evaluation. -/
abbrev scenarioLinkBig : Link scenarioChess :=
  { initial_position := 0
    initial_move := 1
    position := 1
    player_turn := true
    best_move := some { bestmove := some 2 }
    evaluation := some { cp := some 30, mate := none }
    candidate_moves := []
    strict := true }

/-- The same reached link but at position 2, where only 5 pawn-units
remain. -/
abbrev scenarioLinkSmall : Link scenarioChess :=
  { scenarioLinkBig with
      initial_position := 1
      initial_move := 1
      position := 2 }

/-- Claim C6 witness: the scenario evaluated on the concrete instances. -/
theorem is_complete_material_scenario_witness :
    is_complete scenarioChess "Material" true 0 [scenarioLinkBig]
      = some true ∧
    is_complete scenarioChess "Material" true 0 [scenarioLinkSmall]
      = some false :=
  is_complete_material_scenario scenarioChess scenarioLinkBig
    scenarioLinkSmall { cp := some 30, mate := none }
    { cp := some 30, mate := none } rfl rfl rfl rfl rfl rfl rfl rfl

/-- One-step unfolding of `move_list` on a chain of length at least two
(kept folded at the recursive call, for controlled rewriting). -/
theorem move_list_cons_cons (C : Chess) (l n : Link C)
    (rest2 : List (Link C)) :
    move_list C (l :: n :: rest2) =
      if Link.ambiguous C n || C.is_game_over n.position then
        match l.best_move with
        | none => some []
        | some r =>
          match r.bestmove with
          | none => none
          | some m => some [C.uci m]
      else
        match l.best_move with
        | none => none
        | some r =>
          match r.bestmove with
          | none => none
          | some m =>
            (move_list C (n :: rest2)).map (fun tl => C.uci m :: tl) := rfl

/-- One-step unfolding of `move_list_spec` on a chain of length at least
two. -/
theorem move_list_spec_cons_cons (C : Chess) (l n : Link C)
    (rest2 : List (Link C)) :
    move_list_spec C (l :: n :: rest2) =
      (if Link.ambiguous C n || C.is_game_over n.position then
        (match l.best_move with
         | none => ([] : List String)
         | some r =>
           match r.bestmove with
           | none => []
           | some m => [C.uci m])
      else
        (match l.best_move with
         | none => ([] : List String)
         | some r =>
           match r.bestmove with
           | none => []
           | some m => [C.uci m]) ++ move_list_spec C (n :: rest2)) := by
  cases hstop : (Link.ambiguous C n || C.is_game_over n.position) with
  | true => simp only [move_list_spec, hstop]
  | false => simp only [move_list_spec, hstop]

/-- Claim C3: on any chain on which Python's `move_list` does not raise
(`wf_chain`: links with a stored `go` result contain an actual best move and
non-tail links have one stored, which is how `generate` leaves chains),
`move_list` returns exactly the sequence described by the spec
(`move_list_spec`): the `bestMove` UCI coordinates from the current link
down to, but not past, the first link whose next link is ambiguous or whose
next link's position is terminal, a link with no `bestMove` contributing an
empty continuation.  Being a pure function of the chain, a second call
trivially returns the identical output (second conjunct). -/
theorem move_list_matches_spec (C : Chess) (c : List (Link C))
    (h : wf_chain C c = true) :
    move_list C c = some (move_list_spec C c) ∧
    move_list C c = move_list C c := by
  refine ⟨?_, rfl⟩
  induction c with
  | nil => rfl
  | cons l rest ih =>
    cases rest with
    | nil =>
      simp only [wf_chain, link_wf] at h
      cases hb : l.best_move with
      | none => simp [move_list, move_list_spec, hb]
      | some r =>
        cases hbm : r.bestmove with
        | none => rw [hb] at h; simp [hbm] at h
        | some m => simp [move_list, move_list_spec, hb, hbm]
    | cons n rest2 =>
      simp only [wf_chain, Bool.and_eq_true] at h
      obtain ⟨⟨h1, h2⟩, h3⟩ := h
      rw [Option.isSome_iff_exists] at h2
      obtain ⟨r, hr⟩ := h2
      have h1' : r.bestmove.isSome = true := by simpa [link_wf, hr] using h1
      rw [Option.isSome_iff_exists] at h1'
      obtain ⟨m, hm⟩ := h1'
      rw [move_list_cons_cons, move_list_spec_cons_cons]
      simp only [hr, hm]
      cases hstop : (Link.ambiguous C n || C.is_game_over n.position) with
      | true => simp
      | false => simp [ih h3]

/-- A concrete quiet setting (nothing ambiguous, nothing game over) for the
`move_list` witness. -/
abbrev quietChess : Chess where
  Pos := Nat
  Move := Nat
  push := fun p m => p + m
  is_game_over := fun _ => false
  is_checkmate := fun _ => false
  legal_move_count := fun _ => 3
  material_difference := fun _ => 0
  material_count := fun _ => 10
  uci := fun m => toString m
  san := fun _ m => toString m
  ambiguous := fun _ => false

/-- A head link with best move 2 stored. -/
abbrev quietLink1 : Link quietChess :=
  { initial_position := 0
    initial_move := 1
    position := 1
    player_turn := true
    best_move := some { bestmove := some 2 }
    evaluation := some { cp := some 10, mate := none }
    candidate_moves := []
    strict := true }

/-- A tail link with no best move evaluated yet (contributes an empty
continuation). -/
abbrev quietLink2 : Link quietChess :=
  { initial_position := 1
    initial_move := 2
    position := 3
    player_turn := false
    best_move := none
    evaluation := none
    candidate_moves := []
    strict := true }

/-- Claim C3 witness: the refinement evaluated on a concrete two-link
well-formed chain. -/
theorem move_list_matches_spec_witness :
    move_list quietChess [quietLink1, quietLink2]
      = some (move_list_spec quietChess [quietLink1, quietLink2]) ∧
    move_list quietChess [quietLink1, quietLink2]
      = move_list quietChess [quietLink1, quietLink2] :=
  move_list_matches_spec quietChess [quietLink1, quietLink2] rfl

/-- The copy-on-construct law survives `evaluate_candidate_moves` applied to
a link whose `best_move`/`evaluation` were just recorded. -/
theorem law_of_update_ecm (C : Chess) (E : Engine C) (depth : Nat)
    (l : Link C) (bm' : Option (GoResult C)) (ev' : Option Score)
    (h : l.position = C.push l.initial_position l.initial_move) :
    (evaluate_candidate_moves C E depth
        { l with best_move := bm', evaluation := ev' }).position =
      C.push
        (evaluate_candidate_moves C E depth
          { l with best_move := bm', evaluation := ev' }).initial_position
        (evaluate_candidate_moves C E depth
          { l with best_move := bm', evaluation := ev' }).initial_move := by
  obtain ⟨f1, f2, f3, -⟩ :=
    evaluate_candidate_moves_fields C E depth
      { l with best_move := bm', evaluation := ev' }
  rw [f1, f2, f3]
  exact h

/-- Every link of a chain grown by `generate` satisfies the
copy-on-construct law `position = push initial_position initial_move`,
provided the root does. -/
theorem generate_position_law_aux (C : Chess) (E : Engine C) :
    ∀ (fuel depth : Nat) (l : Link C),
      l.position = C.push l.initial_position l.initial_move →
      ∀ l' ∈ generate C E fuel depth l,
        l'.position = C.push l'.initial_position l'.initial_move := by
  intro fuel
  induction fuel with
  | zero =>
    intro depth l hroot l' hl'
    simp only [generate, List.mem_singleton] at hl'
    subst hl'
    exact hroot
  | succ fuel ih =>
    intro depth l hroot l' hl'
    simp only [generate] at hl'
    by_cases h0 : C.legal_move_count l.position = 0
    · rw [if_pos h0] at hl'
      simp only [List.mem_singleton] at hl'
      subst hl'
      exact hroot
    · rw [if_neg h0] at hl'
      cases hb : E.bestmove l.position depth with
      | none =>
        simp only [evaluate_best, hb, List.mem_singleton] at hl'
        subst hl'
        exact hroot
      | some bm =>
        simp only [evaluate_best, hb] at hl'
        split at hl'
        · rcases List.mem_cons.mp hl' with rfl | hmem
          · exact law_of_update_ecm C E depth l _ _ hroot
          · exact ih depth _ rfl l' hmem
        · rcases List.mem_cons.mp hl' with rfl | hmem
          · exact law_of_update_ecm C E depth l _ _ hroot
          · simp only [List.mem_singleton] at hmem
            subst hmem
            rfl

/-- Claim C9: for a chain generated from a freshly constructed root link,
construction stores owned snapshots — `initial_position` and `initial_move`
are kept verbatim and `position` is obtained by applying the move — and for
every link of the generated chain `position = push initial_position
initial_move` still holds: `generate` populates only `best_move`,
`evaluation`, `candidate_moves` and the successor, and the remaining
operations (`move_list`, `category`, `is_complete`, `game_over`) are pure
functions of the chain, so no operation mutates the snapshots. -/
theorem position_snapshot_law (C : Chess) (E : Engine C) (fuel depth : Nat)
    (p : C.Pos) (m : C.Move) (pt st : Bool) (l' : Link C)
    (hmem : l' ∈ generate C E fuel depth (Link.init C p m pt st)) :
    (Link.init C p m pt st).initial_position = p ∧
    (Link.init C p m pt st).initial_move = m ∧
    (Link.init C p m pt st).position = C.push p m ∧
    l'.position = C.push l'.initial_position l'.initial_move :=
  ⟨rfl, rfl, rfl, generate_position_law_aux C E fuel depth
    (Link.init C p m pt st) rfl l' hmem⟩

/-- Every link of a chain grown by `generate` from a root with an empty
candidate list carries at most `min 3 legal_move_count` candidate moves:
each link passes through `evaluate_candidate_moves` at most once, starting
empty. -/
theorem generate_candidate_bound_aux (C : Chess) (E : Engine C) :
    ∀ (fuel depth : Nat) (l : Link C), l.candidate_moves = [] →
      ∀ l' ∈ generate C E fuel depth l,
        l'.candidate_moves.length
          ≤ min 3 (C.legal_move_count l'.position) := by
  intro fuel
  induction fuel with
  | zero =>
    intro depth l hroot l' hl'
    simp only [generate, List.mem_singleton] at hl'
    subst hl'
    simp [hroot]
  | succ fuel ih =>
    intro depth l hroot l' hl'
    simp only [generate] at hl'
    by_cases h0 : C.legal_move_count l.position = 0
    · rw [if_pos h0] at hl'
      simp only [List.mem_singleton] at hl'
      subst hl'
      simp [hroot]
    · rw [if_neg h0] at hl'
      cases hb : E.bestmove l.position depth with
      | none =>
        simp only [evaluate_best, hb, List.mem_singleton] at hl'
        subst hl'
        simp [hroot]
      | some bm =>
        simp only [evaluate_best, hb] at hl'
        split at hl'
        · rcases List.mem_cons.mp hl' with rfl | hmem
          · obtain ⟨-, -, f3, -⟩ :=
              evaluate_candidate_moves_fields C E depth
                { l with best_move := some { bestmove := some bm },
                         evaluation := some (E.score l.position depth) }
            rw [f3]
            exact evaluate_candidate_moves_length C E depth _ hroot
          · exact ih depth _ rfl l' hmem
        · rcases List.mem_cons.mp hl' with rfl | hmem
          · obtain ⟨-, -, f3, -⟩ :=
              evaluate_candidate_moves_fields C E depth
                { l with best_move := some { bestmove := some bm },
                         evaluation := some (E.score l.position depth) }
            rw [f3]
            exact evaluate_candidate_moves_length C E depth _ hroot
          · simp only [List.mem_singleton] at hmem
            subst hmem
            simp [Link.init]

/-- Claim C8: after chain generation from a freshly constructed root, every
link of the chain has at most `min(3, number of legal moves in the link's
position)` candidate moves. -/
theorem candidate_moves_bound (C : Chess) (E : Engine C) (fuel depth : Nat)
    (p : C.Pos) (m : C.Move) (pt st : Bool) (l' : Link C)
    (hmem : l' ∈ generate C E fuel depth (Link.init C p m pt st)) :
    l'.candidate_moves.length ≤ min 3 (C.legal_move_count l'.position) :=
  generate_candidate_bound_aux C E fuel depth (Link.init C p m pt st) rfl
    l' hmem

/-- A concrete setting where generation runs: every position has 2 legal
moves, the engine always proposes move 7, and every candidate set is
classified ambiguous (so a player-turn link stops after one step). -/
abbrev busyChess : Chess where
  Pos := Nat
  Move := Nat
  push := fun p m => p + m
  is_game_over := fun _ => false
  is_checkmate := fun _ => false
  legal_move_count := fun _ => 2
  material_difference := fun _ => 0
  material_count := fun _ => 10
  uci := fun m => toString m
  san := fun _ m => toString m
  ambiguous := fun _ => true

/-- The engine for the busy setting. -/
abbrev busyEngine : Engine busyChess where
  bestmove := fun _ _ => some 7
  score := fun _ _ => { cp := some 50, mate := none }
  pv_move := fun _ _ _ _ => 7
  pv_score := fun _ _ _ _ => { cp := some 50, mate := none }

/-- The head link produced by one `generate` step in the busy setting. -/
abbrev busyHead : Link busyChess :=
  { initial_position := 0
    initial_move := 1
    position := 1
    player_turn := true
    best_move := some { bestmove := some 7 }
    evaluation := some { cp := some 50, mate := none }
    candidate_moves :=
      [ { move_uci := "7", move_san := "7",
          evaluation := { cp := some 50, mate := none } },
        { move_uci := "7", move_san := "7",
          evaluation := { cp := some 50, mate := none } } ]
    strict := true }

/-- One `generate` step in the busy setting: the engine finds best move 7,
two candidate moves are recorded, and the ambiguous player-turn link stops
with the freshly built successor left unexpanded. -/
theorem busy_generate_eq :
    generate busyChess busyEngine 1 5 (Link.init busyChess 0 1 true true)
      = [busyHead, Link.init busyChess 1 7 false true] := rfl

/-- Claim C8 witness: the candidate bound evaluated at the head link of a
concretely generated chain (2 candidates, 2 legal moves). -/
theorem candidate_moves_bound_witness :
    busyHead ∈ generate busyChess busyEngine 1 5
      (Link.init busyChess 0 1 true true) ∧
    busyHead.candidate_moves.length
      ≤ min 3 (busyChess.legal_move_count busyHead.position) := by
  have hmem : busyHead ∈ generate busyChess busyEngine 1 5
      (Link.init busyChess 0 1 true true) := by
    rw [busy_generate_eq]
    exact List.mem_cons_self _ _
  exact ⟨hmem,
    candidate_moves_bound busyChess busyEngine 1 5 0 1 true true busyHead
      hmem⟩

/-- Claim C9 witness: the copy-on-construct law evaluated on the links of a
concretely generated chain. -/
theorem position_snapshot_law_witness :
    (Link.init busyChess 0 1 true true).position = busyChess.push 0 1 ∧
    (Link.init busyChess 1 7 false true).position = busyChess.push 1 7 := by
  have hmem : Link.init busyChess 1 7 false true ∈
      generate busyChess busyEngine 1 5 (Link.init busyChess 0 1 true true)
      := by
    rw [busy_generate_eq]
    exact List.mem_cons_of_mem _ (List.mem_cons_self _ _)
  have h := position_snapshot_law busyChess busyEngine 1 5 0 1 true true
    (Link.init busyChess 1 7 false true) hmem
  exact ⟨h.2.2.1, h.2.2.2⟩

/-- Claim C1: the recursion decision of `generate`.  On a link where a best
move was found (the position has legal moves and the engine returns one),
the chain construction always recurses into the successor when
`player_turn` (the spec's `sideBeingTested`) is false; when it is true, it
recurses exactly when this link is unambiguous and neither this link's
position nor the successor's position is game over, and otherwise stops,
leaving the freshly built successor unexpanded at the end of the chain. -/
theorem generate_recursion_decision (C : Chess) (E : Engine C)
    (fuel depth : Nat) (l : Link C) (bm : C.Move)
    (hlegal : ¬ C.legal_move_count l.position = 0)
    (hbm : E.bestmove l.position depth = some bm) :
    generate C E (fuel + 1) depth l =
      (let l'' := evaluate_candidate_moves C E depth
        { l with best_move := some { bestmove := some bm }
                 evaluation := some (E.score l.position depth) }
       let nxt := Link.init C l.position bm (!l.player_turn) l.strict
       if l.player_turn = false then
         l'' :: generate C E fuel depth nxt
       else if Link.ambiguous C l'' = false
           ∧ C.is_game_over l''.position = false
           ∧ C.is_game_over nxt.position = false then
         l'' :: generate C E fuel depth nxt
       else
         l'' :: [nxt]) := by
  obtain ⟨ip, im, pos, pt, bmv, ev, cm, st⟩ := l
  simp only [generate, if_neg hlegal, evaluate_best, hbm]
  cases pt with
  | false =>
    obtain ⟨-, -, f3, f4, -⟩ :=
      evaluate_candidate_moves_fields C E depth
        ⟨ip, im, pos, false, some { bestmove := some bm },
          some (E.score pos depth), cm, st⟩
    simp [f4, Link.game_over]
  | true =>
    obtain ⟨-, -, f3, f4, -⟩ :=
      evaluate_candidate_moves_fields C E depth
        ⟨ip, im, pos, true, some { bestmove := some bm },
          some (E.score pos depth), cm, st⟩
    simp only [Link.game_over, Link.init, f3, f4]
    cases hamb : Link.ambiguous C (evaluate_candidate_moves C E depth
        ⟨ip, im, pos, true, some { bestmove := some bm },
          some (E.score pos depth), cm, st⟩) <;>
      cases hgo1 : C.is_game_over pos <;>
      cases hgo2 : C.is_game_over (C.push pos bm) <;>
      simp

/-- The head link of the opponent-turn variant of the busy setting. -/
abbrev busyHeadOpp : Link busyChess :=
  { busyHead with player_turn := false }

/-- Claim C1 witness: with `player_turn = false` at the root (ambiguity
notwithstanding), the chain recurses into the successor unconditionally:
with one unit of fuel the successor is still expanded once (here it simply
runs out of fuel immediately, leaving the two links). -/
theorem generate_recursion_decision_witness :
    generate busyChess busyEngine 1 5 (Link.init busyChess 0 1 false true)
      = [busyHeadOpp, Link.init busyChess 1 7 true true] := by
  have h := generate_recursion_decision busyChess busyEngine 0 5
    (Link.init busyChess 0 1 false true) 7 (by decide) rfl
  exact h.trans rfl

/-- A terminal setting: no position has any legal move. -/
abbrev frozenChess : Chess where
  Pos := Nat
  Move := Nat
  push := fun p m => p + m
  is_game_over := fun _ => true
  is_checkmate := fun _ => false
  legal_move_count := fun _ => 0
  material_difference := fun _ => 0
  material_count := fun _ => 10
  uci := fun m => toString m
  san := fun _ m => toString m
  ambiguous := fun _ => false

/-- One engine for the terminal setting. -/
abbrev frozenEngine : Engine frozenChess where
  bestmove := fun _ _ => some 3
  score := fun _ _ => { cp := some 0, mate := none }
  pv_move := fun _ _ _ _ => 3
  pv_score := fun _ _ _ _ => { cp := some 0, mate := none }

/-- A second, different engine for the terminal setting, to exhibit engine
independence of the no-op. -/
abbrev frozenEngine2 : Engine frozenChess where
  bestmove := fun _ _ => none
  score := fun _ _ => { cp := none, mate := some 1 }
  pv_move := fun _ _ _ _ => 9
  pv_score := fun _ _ _ _ => { cp := none, mate := some 1 }

/-- Claim C10 witness: the no-op terminal evaluated concretely — the chain
is the unchanged fresh link whatever engine, fuel and depth are used, and
that link has `best_move = none` and no candidate moves. -/
theorem generate_no_legal_moves_noop_witness :
    generate frozenChess frozenEngine 4 9 (Link.init frozenChess 0 1 true
      true) = [Link.init frozenChess 0 1 true true] ∧
    generate frozenChess frozenEngine 4 9 (Link.init frozenChess 0 1 true
      true) = generate frozenChess frozenEngine2 7 3 (Link.init frozenChess
      0 1 true true) ∧
    (Link.init frozenChess 0 1 true true).best_move = none ∧
    (Link.init frozenChess 0 1 true true).candidate_moves = [] := by
  have h := generate_no_legal_moves_noop frozenChess frozenEngine
    frozenEngine2 4 7 9 3 (Link.init frozenChess 0 1 true true) rfl
  exact ⟨h.1, h.2.1, (h.2.2 0 1 true true).1, (h.2.2 0 1 true true).2⟩

/-- Claim C7 counterexample: a link whose `next_position` is null but whose
own position is already game over: `game_over` returns `True` as a normal
result rather than raising — Python's short-circuiting `or` never touches
`next_position` — refuting "calling `game_over()` is an error for every
link with null `next`". -/
theorem game_over_null_next_counterexample :
    Link.game_over stalemateChess stalemateLink [] = some true := rfl
